import Mathlib

set_option linter.unusedVariables false

/-! Verification development for the figma-mcp Vercel handler
(`api/server.ts`).  The handler bridges MCP-style JSON tool calls to the
Figma REST API: an `OPTIONS` preflight branch, a `GET` branch serving a
Server-Sent-Events stream with a 30-second keep-alive interval, a `POST`
branch that decodes a JSON envelope and dispatches to the two registered
tools (`get-file` and `export-node`), and a fallback status response.

The embedding below models JavaScript values that the handler manipulates:
JSON documents (with numbers as rationals, the reachable image of JSON
text; IEEE-754 printing quirks such as exponent notation for very large or
very small magnitudes are outside the model), `JSON.stringify(·, null, 2)`
with its two-space pretty printing and string escaping, `JSON.parse`, the
`fetch`-based `figma` helper (the backend is an explicit function from
requests to responses, and each call's issued requests are returned
alongside its result so that "zero network calls" is a statement of the
model), the zod argument schemas, and the SSE connection lifecycle as a
trace over tick/close events. -/

namespace FigmaMcp

mutual
/-- JSON values.  Object members keep their insertion order, as JavaScript
objects built from parsed JSON do. -/
inductive Json where
  | null : Json
  | bool (b : Bool) : Json
  | num (q : Rat) : Json
  | str (s : String) : Json
  | arr (elems : JsonList) : Json
  | obj (members : JsonObj) : Json
inductive JsonList where
  | nil : JsonList
  | cons (hd : Json) (tl : JsonList) : JsonList
inductive JsonObj where
  | nil : JsonObj
  | cons (key : String) (val : Json) (tl : JsonObj) : JsonObj
end

/-- First member with the given key, the value of `o[key]`. -/
def JsonObj.lookup : JsonObj → String → Option Json
  | .nil, _ => none
  | .cons k v t, key => if k = key then some v else t.lookup key

/-- JavaScript property access `x[key]` as the handler uses it: defined on
objects, `undefined` (here `none`) elsewhere. -/
def Json.getField : Json → String → Option Json
  | .obj m, key => m.lookup key
  | _, _ => none

/-- JavaScript truthiness of a JSON value (`!x` reads `not (truthy x)`). -/
def Json.truthy : Json → Bool
  | .null => false
  | .bool b => b
  | .num q => q != 0
  | .str s => s != ""
  | .arr _ => true
  | .obj _ => true

/-- Decimal digit character. -/
def digitCh (k : Nat) : Char :=
  match k with
  | 0 => '0' | 1 => '1' | 2 => '2' | 3 => '3' | 4 => '4'
  | 5 => '5' | 6 => '6' | 7 => '7' | 8 => '8' | _ => '9'

/-- Lowercase hexadecimal digit character. -/
def hexCh (k : Nat) : Char :=
  match k with
  | 0 => '0' | 1 => '1' | 2 => '2' | 3 => '3' | 4 => '4'
  | 5 => '5' | 6 => '6' | 7 => '7' | 8 => '8' | 9 => '9'
  | 10 => 'a' | 11 => 'b' | 12 => 'c' | 13 => 'd' | 14 => 'e' | _ => 'f'

/-- Decimal digits, most significant first, fuel-bounded so that it reduces
definitionally (any `fuel > n` computes all digits). -/
def natCharsAux : Nat → Nat → List Char
  | 0, n => [digitCh n]
  | fuel + 1, n => if n < 10 then [digitCh n] else natCharsAux fuel (n / 10) ++ [digitCh (n % 10)]

/-- Decimal digits of a natural number, most significant first ("0" for 0). -/
def natChars (n : Nat) : List Char := natCharsAux n n

/-- Multiplicity counter, fuel-bounded (any `fuel ≥ n` suffices). -/
def multPAux : Nat → Nat → Nat → Nat
  | 0, _, _ => 0
  | fuel + 1, p, n => if 2 ≤ p ∧ n ≠ 0 ∧ n % p = 0 then multPAux fuel p (n / p) + 1 else 0

/-- Multiplicity of `p` in `n` (0 when `p < 2` or `n = 0`). -/
def multP (p n : Nat) : Nat := multPAux n p n

/-- Number of decimal fraction digits a denominator needs:
`max (multiplicity of 2) (multiplicity of 5)`. -/
def decExp (d : Nat) : Nat := max (multP 2 d) (multP 5 d)

/-- A rational whose reduced denominator divides a power of ten: exactly the
values finite decimal JSON number literals denote. -/
def goodRat (q : Rat) : Bool := decide (q.den ∣ 10 ^ decExp q.den)

/-- JavaScript's decimal rendering of a number: optional minus sign, integer
part, and (when the denominator needs it) a '.' and the fraction digits. -/
def numChars (q : Rat) : List Char :=
  let e := decExp q.den
  let scaled := q.num.natAbs * (10 ^ e / q.den)
  let ip := scaled / 10 ^ e
  let fr := scaled % 10 ^ e
  let fpart :=
    if e = 0 then []
    else '.' :: (List.replicate (e - (natChars fr).length) '0' ++ natChars fr)
  (if q.num < 0 then ['-'] else []) ++ natChars ip ++ fpart

/-- `JSON.stringify`'s escaping of one string character. -/
def escChar (c : Char) : List Char :=
  if c = '"' then ['\\', '"']
  else if c = '\\' then ['\\', '\\']
  else if c = '\n' then ['\\', 'n']
  else if c = '\r' then ['\\', 'r']
  else if c = '\t' then ['\\', 't']
  else if c = '\x08' then ['\\', 'b']
  else if c = '\x0c' then ['\\', 'f']
  else if c.toNat < 32 then ['\\', 'u', '0', '0', hexCh (c.toNat / 16), hexCh (c.toNat % 16)]
  else [c]

/-- Escaped body of a string literal. -/
def escString (cs : List Char) : List Char := cs.foldr (fun c acc => escChar c ++ acc) []

/-- A quoted JSON string literal. -/
def strChars (s : String) : List Char := '"' :: (escString s.data ++ ['"'])

/-- Indentation for nesting depth `d` under `JSON.stringify(·, null, 2)`. -/
def jind (d : Nat) : List Char := List.replicate (2 * d) ' '

mutual
/-- Characters of `JSON.stringify(value, null, 2)` at nesting depth `d`:
empty containers print flat, nonempty ones with one line per entry. -/
def jChars : Json → Nat → List Char
  | .null, _ => ['n', 'u', 'l', 'l']
  | .bool true, _ => ['t', 'r', 'u', 'e']
  | .bool false, _ => ['f', 'a', 'l', 's', 'e']
  | .num q, _ => numChars q
  | .str s, _ => strChars s
  | .arr .nil, _ => ['[', ']']
  | .arr (.cons v t), d => '[' :: '\n' :: (jind (d + 1) ++ jChars v (d + 1) ++ jlTail t d)
  | .obj .nil, _ => ['{', '}']
  | .obj (.cons k v t), d =>
      '{' :: '\n' :: (jind (d + 1) ++ strChars k ++ ':' :: ' ' :: jChars v (d + 1) ++ joTail t d)
def jlTail : JsonList → Nat → List Char
  | .nil, d => '\n' :: (jind d ++ [']'])
  | .cons v t, d => ',' :: '\n' :: (jind (d + 1) ++ jChars v (d + 1) ++ jlTail t d)
def joTail : JsonObj → Nat → List Char
  | .nil, d => '\n' :: (jind d ++ ['}'])
  | .cons k v t, d =>
      ',' :: '\n' :: (jind (d + 1) ++ strChars k ++ ':' :: ' ' :: jChars v (d + 1) ++ joTail t d)
end

/-- `JSON.stringify(j, null, 2)`. -/
def Json.stringify (j : Json) : String := String.mk (jChars j 0)

mutual
/-- All numbers in the document are finite-decimal rationals. -/
def Json.goodNums : Json → Bool
  | .null => true
  | .bool _ => true
  | .str _ => true
  | .num q => goodRat q
  | .arr l => l.goodNums
  | .obj m => m.goodNums
def JsonList.goodNums : JsonList → Bool
  | .nil => true
  | .cons v t => v.goodNums && t.goodNums
def JsonObj.goodNums : JsonObj → Bool
  | .nil => true
  | .cons _ v t => v.goodNums && t.goodNums
end

/-- JSON whitespace. -/
def isWsChar (c : Char) : Bool := c = ' ' || c = '\n' || c = '\t' || c = '\r'

/-- Drop leading whitespace. -/
def skipWs : List Char → List Char
  | [] => []
  | c :: r => if isWsChar c then skipWs r else c :: r

/-- Decimal digit test. -/
def isDigitCh (c : Char) : Bool := 48 ≤ c.toNat && c.toNat ≤ 57

/-- Value of a decimal digit character. -/
def digitVal (c : Char) : Nat := c.toNat - 48

/-- Value of a hexadecimal digit character (JSON also accepts uppercase). -/
def hexVal (c : Char) : Option Nat :=
  if isDigitCh c then some (digitVal c)
  else if c = 'a' ∨ c = 'A' then some 10
  else if c = 'b' ∨ c = 'B' then some 11
  else if c = 'c' ∨ c = 'C' then some 12
  else if c = 'd' ∨ c = 'D' then some 13
  else if c = 'e' ∨ c = 'E' then some 14
  else if c = 'f' ∨ c = 'F' then some 15
  else none

/-- Character a single-letter JSON escape denotes. -/
def escCode (c : Char) : Option Char :=
  if c = '"' then some '"'
  else if c = '\\' then some '\\'
  else if c = '/' then some '/'
  else if c = 'n' then some '\n'
  else if c = 'r' then some '\r'
  else if c = 't' then some '\t'
  else if c = 'b' then some '\x08'
  else if c = 'f' then some '\x0c'
  else none

/-- Body of a JSON string literal after the opening quote: characters up to
the closing quote, escapes decoded. -/
def parseStrBody : List Char → Option (List Char × List Char)
  | [] => none
  | c :: r =>
    if c = '"' then some ([], r)
    else if c = '\\' then
      match r with
      | [] => none
      | e :: r2 =>
        if e = 'u' then
          match r2 with
          | h1 :: h2 :: h3 :: h4 :: r3 =>
            match hexVal h1, hexVal h2, hexVal h3, hexVal h4 with
            | some a, some b, some c2, some d2 =>
              match parseStrBody r3 with
              | some (cs, rest) =>
                  some (Char.ofNat (((a * 16 + b) * 16 + c2) * 16 + d2) :: cs, rest)
              | none => none
            | _, _, _, _ => none
          | _ => none
        else
          match escCode e with
          | some ec =>
            match parseStrBody r2 with
            | some (cs, rest) => some (ec :: cs, rest)
            | none => none
          | none => none
    else
      match parseStrBody r with
      | some (cs, rest) => some (c :: cs, rest)
      | none => none

/-- Longest run of decimal digits: accumulated value, digit count, rest. -/
def parseDigits : Nat → Nat → List Char → Nat × Nat × List Char
  | acc, cnt, [] => (acc, cnt, [])
  | acc, cnt, c :: r =>
    if isDigitCh c then parseDigits (acc * 10 + digitVal c) (cnt + 1) r else (acc, cnt, c :: r)

/-- Apply a sign to a natural number. -/
def intSign (neg : Bool) (n : Nat) : Int := if neg then -(n : Int) else (n : Int)

/-- A JSON number after its optional minus sign: integer part and optional
fraction (exponent notation is not modelled; the handler never emits it). -/
def parseNumCore (neg : Bool) (s : List Char) : Option (Json × List Char) :=
  match s with
  | [] => none
  | c :: r =>
    if isDigitCh c then
      let p1 := parseDigits (digitVal c) 1 r
      match p1.2.2 with
      | [] => some (.num (mkRat (intSign neg p1.1) 1), [])
      | d :: r2 =>
        if d = '.' then
          match r2 with
          | [] => none
          | f0 :: r3 =>
            if isDigitCh f0 then
              let p2 := parseDigits (digitVal f0) 1 r3
              some (.num (mkRat (intSign neg (p1.1 * 10 ^ p2.2.1 + p2.1)) (10 ^ p2.2.1)), p2.2.2)
            else none
        else some (.num (mkRat (intSign neg p1.1) 1), d :: r2)
    else none

/-- A JSON number literal. -/
def parseNum (s : List Char) : Option (Json × List Char) :=
  match s with
  | [] => none
  | c :: r => if c = '-' then parseNumCore true r else parseNumCore false (c :: r)

/-- Strip an exact expected prefix. -/
def stripPre : List Char → List Char → Option (List Char)
  | [], s => some s
  | p :: ps, c :: cs => if c = p then stripPre ps cs else none
  | _ :: _, [] => none

mutual
/-- Recursive-descent JSON value parser; `fuel` bounds the nesting depth. -/
def parseVal : Nat → List Char → Option (Json × List Char)
  | 0, _ => none
  | fuel + 1, s =>
    match skipWs s with
    | [] => none
    | c :: r =>
      if c = 'n' then
        match stripPre ['u', 'l', 'l'] r with
        | some r2 => some (.null, r2)
        | none => none
      else if c = 't' then
        match stripPre ['r', 'u', 'e'] r with
        | some r2 => some (.bool true, r2)
        | none => none
      else if c = 'f' then
        match stripPre ['a', 'l', 's', 'e'] r with
        | some r2 => some (.bool false, r2)
        | none => none
      else if c = '"' then
        match parseStrBody r with
        | some (cs, rest) => some (.str (String.mk cs), rest)
        | none => none
      else if c = '[' then
        match skipWs r with
        | [] => none
        | c1 :: r1 =>
          if c1 = ']' then some (.arr .nil, r1)
          else
            match parseVal fuel (c1 :: r1) with
            | some (v, r2) =>
              match parseListTail fuel r2 with
              | some (t, r3) => some (.arr (.cons v t), r3)
              | none => none
            | none => none
      else if c = '{' then
        match skipWs r with
        | [] => none
        | c1 :: r1 =>
          if c1 = '}' then some (.obj .nil, r1)
          else if c1 = '"' then
            match parseStrBody r1 with
            | some (k, r2) =>
              match parseMemberVal fuel r2 with
              | some (v, r3) =>
                match parseObjTail fuel r3 with
                | some (m, r4) => some (.obj (.cons (String.mk k) v m), r4)
                | none => none
              | none => none
            | none => none
          else none
      else parseNum (c :: r)
/-- After an object key: colon then the member's value. -/
def parseMemberVal : Nat → List Char → Option (Json × List Char)
  | 0, _ => none
  | fuel + 1, s =>
    match skipWs s with
    | [] => none
    | c :: r => if c = ':' then parseVal fuel r else none
/-- After an array element: close bracket, or comma and further elements. -/
def parseListTail : Nat → List Char → Option (JsonList × List Char)
  | 0, _ => none
  | fuel + 1, s =>
    match skipWs s with
    | [] => none
    | c :: r =>
      if c = ']' then some (.nil, r)
      else if c = ',' then
        match parseVal fuel r with
        | some (v, r1) =>
          match parseListTail fuel r1 with
          | some (t, r2) => some (.cons v t, r2)
          | none => none
        | none => none
      else none
/-- After an object member: close brace, or comma and further members. -/
def parseObjTail : Nat → List Char → Option (JsonObj × List Char)
  | 0, _ => none
  | fuel + 1, s =>
    match skipWs s with
    | [] => none
    | c :: r =>
      if c = '}' then some (.nil, r)
      else if c = ',' then
        match skipWs r with
        | [] => none
        | c1 :: r1 =>
          if c1 = '"' then
            match parseStrBody r1 with
            | some (k, r2) =>
              match parseMemberVal fuel r2 with
              | some (v, r3) =>
                match parseObjTail fuel r3 with
                | some (m, r4) => some (.cons (String.mk k) v m, r4)
                | none => none
              | none => none
            | none => none
          else none
      else none
end

/-- `JSON.parse`: a whole document, allowing trailing whitespace only. -/
def Json.parse (s : String) : Option Json :=
  match parseVal (s.length + 1) s.data with
  | some (v, rest) => if skipWs rest = [] then some v else none
  | none => none

mutual
/-- Size measure matching the parser's fuel consumption. -/
def jsize : Json → Nat
  | .null => 1
  | .bool _ => 1
  | .num _ => 1
  | .str _ => 1
  | .arr .nil => 1
  | .arr (.cons v t) => 1 + jsize v + jlsize t
  | .obj .nil => 1
  | .obj (.cons _ v t) => 2 + jsize v + josize t
def jlsize : JsonList → Nat
  | .nil => 1
  | .cons v t => 1 + jsize v + jlsize t
def josize : JsonObj → Nat
  | .nil => 1
  | .cons _ v t => 2 + jsize v + josize t
end

/-- Uppercase hexadecimal digit character (percent-encoding uses uppercase). -/
def hexChU (k : Nat) : Char :=
  match k with
  | 0 => '0' | 1 => '1' | 2 => '2' | 3 => '3' | 4 => '4'
  | 5 => '5' | 6 => '6' | 7 => '7' | 8 => '8' | 9 => '9'
  | 10 => 'A' | 11 => 'B' | 12 => 'C' | 13 => 'D' | 14 => 'E' | _ => 'F'

/-- UTF-8 bytes of a code point. -/
def utf8Bytes (n : Nat) : List Nat :=
  if n < 128 then [n]
  else if n < 2048 then [192 + n / 64, 128 + n % 64]
  else if n < 65536 then [224 + n / 4096, 128 + (n / 64) % 64, 128 + n % 64]
  else [240 + n / 262144, 128 + (n / 4096) % 64, 128 + (n / 64) % 64, 128 + n % 64]

/-- Characters `URLSearchParams` leaves unencoded: ASCII alphanumerics and
`*`, `-`, `.`, `_`. -/
def isUnreservedParam (c : Char) : Bool :=
  (65 ≤ c.toNat && c.toNat ≤ 90) || (97 ≤ c.toNat && c.toNat ≤ 122) ||
  (48 ≤ c.toNat && c.toNat ≤ 57) || c = '*' || c = '-' || c = '.' || c = '_'

/-- `application/x-www-form-urlencoded` encoding of one character. -/
def encodeChar (c : Char) : List Char :=
  if isUnreservedParam c then [c]
  else if c = ' ' then ['+']
  else (utf8Bytes c.toNat).foldr (fun b acc => '%' :: hexChU (b / 16) :: hexChU (b % 16) :: acc) []

/-- Percent-encode a whole string. -/
def encodeStr (s : String) : String :=
  String.mk (s.data.foldr (fun c acc => encodeChar c ++ acc) [])

/-- `k=v&k2=v2` serialization of the search parameters set in order. -/
def queryOf : List (String × String) → String
  | [] => ""
  | [(k, v)] => encodeStr k ++ "=" ++ encodeStr v
  | (k, v) :: rest => encodeStr k ++ "=" ++ encodeStr v ++ "&" ++ queryOf rest

/-- The `?query` part of `url.toString()` (empty when no parameter was set). -/
def searchSuffix (ps : List (String × String)) : String :=
  if ps.isEmpty then "" else "?" ++ queryOf ps

/-- The process environment as the handler sees it:
`process.env.FIGMA_ACCESS_TOKEN`, absent or a string. -/
structure Env where
  token : Option String

/-- `!!FIGMA_TOKEN`: the credential is set and nonempty (JavaScript
truthiness of the environment value). -/
def tokenTruthy (env : Env) : Bool :=
  match env.token with
  | none => false
  | some s => s ≠ ""

/-- An outbound HTTP request the `figma` helper passes to `fetch`. -/
structure FigmaRequest where
  url : String
  headers : List (String × String)
deriving DecidableEq

/-- A backend HTTP response: status plus body text (`res.json()` parses the
text, `res.text()` returns it). -/
structure HttpResp where
  status : Nat
  bodyText : String

/-- Decimal rendering of a natural number (JavaScript number-to-string for
the integers the handler prints). -/
def natStr (n : Nat) : String := String.mk (natChars n)

/-- `String(q)` for a JavaScript number modelled as a rational. -/
def ratToString (q : Rat) : String := String.mk (numChars q)

/-- Prefix of every URL the helper builds. -/
def figmaBase : String := "https://api.figma.com/v1/"

/-- `new URL` plus `searchParams.set` loop plus the token header, exactly as
the helper builds its one `fetch` call (URL path normalization is not
modelled; the two callers pass `files/…` and `images/…` paths). -/
def buildFigmaRequest (t path : String) (params : Option (List (String × String))) :
    FigmaRequest :=
  ⟨figmaBase ++ path ++ searchSuffix (params.getD []), [("X-Figma-Token", t)]⟩

/-- The configuration error the helper throws when the credential is falsy. -/
def configErrMsg : String := "FIGMA_ACCESS_TOKEN mangler i environment variables"

/-- The error `export-node` throws when no image URL comes back. -/
def noImageMsg : String := "Ingen billed-URL retur fra Figma"

/-- Message standing for the `SyntaxError` a failing `res.json()` raises. -/
def resJsonErrMsg : String := "Unexpected end of JSON input"

/-- The `figma` helper: credential check, URL construction, one `fetch`,
non-2xx turned into `Figma <status>: <body>` errors, body parsed as JSON.
The second component lists the network requests the call issued, so that
"no network call is attempted" is expressible. -/
def figma (env : Env) (backend : FigmaRequest → HttpResp) (path : String)
    (params : Option (List (String × String))) : Except String Json × List FigmaRequest :=
  match env.token with
  | none => (.error configErrMsg, [])
  | some t =>
    if t = "" then (.error configErrMsg, [])
    else
      let req := buildFigmaRequest t path params
      let r := backend req
      if 200 ≤ r.status ∧ r.status ≤ 299 then
        match Json.parse r.bodyText with
        | some j => (.ok j, [req])
        | none => (.error resJsonErrMsg, [req])
      else
        (.error ("Figma " ++ natStr r.status ++ ": " ++ r.bodyText), [req])

/-- One entry of a tool result's `content` array.  The payload is a JSON
value because JavaScript places whatever value it has in the `text` slot. -/
structure ContentItem where
  type : String
  text : Json

/-- A tool handler's result: `{ content: [...] }`. -/
structure ToolResult where
  content : List ContentItem

/-- The `get-file` tool handler: fetch `files/<fileKey>` and wrap the
document as one `json`-kind item holding `JSON.stringify(data, null, 2)`. -/
def getFileTool (env : Env) (backend : FigmaRequest → HttpResp) (fileKey : String) :
    Except String ToolResult × List FigmaRequest :=
  match figma env backend ("files/" ++ fileKey) none with
  | (.ok data, log) => (.ok ⟨[⟨"json", .str (Json.stringify data)⟩]⟩, log)
  | (.error e, log) => (.error e, log)

/-- Validated `export-node` arguments. -/
structure ExportArgs where
  fileKey : String
  nodeId : String
  format : String
  scale : Rat

/-- The `export-node` tool handler: fetch `images/<fileKey>` with
`ids`, `format` and stringified `scale` query parameters, then take
`data.images?.[nodeId]` and fail unless it is truthy. -/
def exportNodeTool (env : Env) (backend : FigmaRequest → HttpResp) (a : ExportArgs) :
    Except String ToolResult × List FigmaRequest :=
  match figma env backend ("images/" ++ a.fileKey)
      (some [("ids", a.nodeId), ("format", a.format), ("scale", ratToString a.scale)]) with
  | (.error e, log) => (.error e, log)
  | (.ok data, log) =>
    match (data.getField "images").bind (fun im => im.getField a.nodeId) with
    | some url => if url.truthy then (.ok ⟨[⟨"text", url⟩]⟩, log) else (.error noImageMsg, log)
    | none => (.error noImageMsg, log)

/-- A required string field of the argument object. -/
def requireString (args : Json) (key : String) : Except String String :=
  match args.getField key with
  | some (.str s) => .ok s
  | some _ => .error (key ++ ": expected string")
  | none => .error (key ++ ": required")

/-- Modelled from the spec: validation of `get-file` arguments against the
declared zod schema `z.object({ fileKey: z.string() })` (the zod library
itself is not part of the repository's sources). -/
def validateGetFile (args : Json) : Except String String := requireString args "fileKey"

/-- The validation error for an out-of-range `scale`, naming the field. -/
def scaleErrMsg : String := "scale: must be between 0.1 and 4"

/-- The validation error for a bad `format`, naming the field. -/
def formatErrMsg : String := "format: invalid enum value, expected png or svg"

/-- Modelled from the spec: validation of `export-node` arguments against
the declared zod schema — `fileKey` and `nodeId` strings, `format` in
`{png, svg}` defaulting to `"png"`, `scale` a number in `[0.1, 4]`
defaulting to `1` (zod itself is not part of the repository's sources). -/
def validateExportNode (args : Json) : Except String ExportArgs := do
  let fileKey ← requireString args "fileKey"
  let nodeId ← requireString args "nodeId"
  let format ←
    match args.getField "format" with
    | none => Except.ok "png"
    | some (.str s) =>
        if s = "png" ∨ s = "svg" then Except.ok s else Except.error formatErrMsg
    | some _ => Except.error "format: expected string"
  let scale ←
    match args.getField "scale" with
    | none => Except.ok (1 : Rat)
    | some (.num q) => if mkRat 1 10 ≤ q ∧ q ≤ 4 then Except.ok q else Except.error scaleErrMsg
    | some _ => Except.error "scale: expected number"
  return ⟨fileKey, nodeId, format, scale⟩

/-- `{ type, text }` as JSON. -/
def contentItemJson (it : ContentItem) : Json :=
  .obj (.cons "type" (.str it.type) (.cons "text" it.text .nil))

/-- A content list as a JSON array. -/
def contentListJson : List ContentItem → JsonList
  | [] => .nil
  | it :: r => .cons (contentItemJson it) (contentListJson r)

/-- The reply envelope for a successful invocation. -/
def encodeReply (idv : Json) (r : ToolResult) : Json :=
  .obj (.cons "id" idv (.cons "content" (.arr (contentListJson r.content)) .nil))

/-- Modelled from the spec: the MCP SDK `Server.handleJSON` (library code,
not part of the repository's sources) — decode the envelope's tool name and
arguments, look the tool up in the fixed registry, validate the arguments
against the tool's schema, run the tool's handler, encode its result. -/
def handleJSON (env : Env) (backend : FigmaRequest → HttpResp) (body : Json) :
    Except String Json × List FigmaRequest :=
  let idv := (body.getField "id").getD .null
  match body.getField "toolName" with
  | some (.str name) =>
    let args := (body.getField "arguments").getD (.obj .nil)
    if name = "get-file" then
      match validateGetFile args with
      | .error e => (.error e, [])
      | .ok fileKey =>
        match getFileTool env backend fileKey with
        | (.ok r, log) => (.ok (encodeReply idv r), log)
        | (.error e, log) => (.error e, log)
    else if name = "export-node" then
      match validateExportNode args with
      | .error e => (.error e, [])
      | .ok a =>
        match exportNodeTool env backend a with
        | (.ok r, log) => (.ok (encodeReply idv r), log)
        | (.error e, log) => (.error e, log)
    else (.error ("unknown tool: " ++ name), [])
  | _ => (.error "invalid envelope: missing toolName", [])

/-- The inbound request body as Vercel hands it to the handler. -/
inductive ReqBody where
  | missing : ReqBody
  | strB (s : String) : ReqBody
  | jsonB (j : Json) : ReqBody

/-- What one invocation of the handler does to the response: a status/body
response, an empty `end()`, an SSE stream, or an exception that escapes the
handler (nothing in the function catches it). -/
inductive Outcome where
  | res (status : Nat) (body : Json) : Outcome
  | resEmpty (status : Nat) : Outcome
  | sse (writes : List String) (timerActive : Bool) (periodMs : Nat) : Outcome
  | uncaught (msg : String) : Outcome

/-- Message standing for the `SyntaxError` `JSON.parse` raises on a bad
body — outside the `try`, so nothing in the handler catches it. -/
def jsonParseErrMsg : String := "Unexpected token in JSON"

/-- `typeof req.body === 'string' ? JSON.parse(req.body) : req.body`. -/
def jsBodyOf : ReqBody → Except String (Option Json)
  | .missing => .ok none
  | .jsonB j => .ok (some j)
  | .strB s =>
    match Json.parse s with
    | some j => .ok (some j)
    | none => .error jsonParseErrMsg

/-- `{ error: msg }`. -/
def errorBody (msg : String) : Json := .obj (.cons "error" (.str msg) .nil)

/-- The POST branch: decode the body, 400 on a falsy body, dispatch through
`handleJSON` inside the `try`, 500 `{error}` on a caught error. -/
def handlePost (env : Env) (backend : FigmaRequest → HttpResp) (b : ReqBody) :
    Outcome × List FigmaRequest :=
  match jsBodyOf b with
  | .error e => (.uncaught e, [])
  | .ok none => (.res 400 (errorBody "Missing JSON body"), [])
  | .ok (some j) =>
    if j.truthy then
      match handleJSON env backend j with
      | (.ok reply, log) => (.res 200 reply, log)
      | (.error e, log) => (.res 500 (errorBody e), log)
    else (.res 400 (errorBody "Missing JSON body"), [])

/-- Connection-lifecycle events the runtime delivers to an open SSE stream:
a 30-second interval tick, or the client closing the connection. -/
inductive SseEvent where
  | tick : SseEvent
  | close : SseEvent

/-- The initial capability-announcement SSE event. -/
def sseInitEvent : String :=
  "data: \x7b\"jsonrpc\":\"2.0\",\"method\":\"initialized\",\"params\":\x7b\x7d\x7d\n\n"

/-- The keep-alive ping SSE event. -/
def ssePingEvent : String :=
  "data: \x7b\"jsonrpc\":\"2.0\",\"method\":\"ping\"\x7d\n\n"

/-- Event loop of an open SSE connection: a tick writes a ping while the
interval is live; `close` runs the `req.on('close')` callback, which clears
the interval (a cleared interval never fires again). Returns the writes and
whether the timer is still live. -/
def sseLoop : List SseEvent → Bool → List String × Bool
  | [], timer => ([], timer)
  | .tick :: evs, timer =>
    if timer then
      let p := sseLoop evs timer
      (ssePingEvent :: p.1, p.2)
    else sseLoop evs timer
  | .close :: evs, _ => sseLoop evs false

/-- The GET branch: write the `initialized` event, then run the connection
against the runtime's event schedule; the keep-alive interval period is the
30000 ms passed to `setInterval`. -/
def sseRun (evs : List SseEvent) : Outcome :=
  let p := sseLoop evs true
  .sse (sseInitEvent :: p.1) p.2 30000

/-- HTTP method of the inbound request. -/
inductive HMethod where
  | options : HMethod
  | get : HMethod
  | post : HMethod
  | other (m : String) : HMethod

/-- The fallback health-check body. -/
def fallbackBody (env : Env) : Json :=
  .obj (.cons "ok" (.bool true) (.cons "server" (.str "figma-mcp")
    (.cons "env" (.bool (tokenTruthy env)) (.cons "methods"
      (.arr (.cons (.str "GET (SSE)") (.cons (.str "POST (JSON-RPC)") .nil))) .nil))))

/-- The exported Vercel handler: method routing (CORS header plumbing is not
modelled).  `evs` is the SSE event schedule the runtime would deliver on the
GET path. -/
def handler (env : Env) (backend : FigmaRequest → HttpResp) (m : HMethod) (b : ReqBody)
    (evs : List SseEvent) : Outcome × List FigmaRequest :=
  match m with
  | .options => (.resEmpty 200, [])
  | .get => (sseRun evs, [])
  | .post => handlePost env backend b
  | .other _ => (.res 200 (fallbackBody env), [])

/-! Lifecycle observables of an SSE event schedule. -/

/-- Interval ticks delivered before the client closes the connection. -/
def sseTicksBeforeClose : List SseEvent → Nat
  | [] => 0
  | .tick :: evs => sseTicksBeforeClose evs + 1
  | .close :: _ => 0

/-- Whether the schedule contains a client disconnect. -/
def sseHasClose : List SseEvent → Bool
  | [] => false
  | .tick :: evs => sseHasClose evs
  | .close :: _ => true

/-- A closed connection writes nothing further and the timer stays cleared. -/
theorem sseLoop_closed (evs : List SseEvent) : sseLoop evs false = ([], false) := by
  induction evs with
  | nil => rfl
  | cons e evs ih => cases e <;> simp [sseLoop, ih]

/-- C1: while the access credential is absent from the environment, both tool
handlers (get-file and export-node) fail with the configuration error and
issue no network request at all. -/
theorem c1_missing_token_config_error_no_network (env : Env)
    (backend : FigmaRequest → HttpResp) (fileKey : String) (a : ExportArgs)
    (h : env.token = none) :
    getFileTool env backend fileKey = (.error configErrMsg, []) ∧
    exportNodeTool env backend a = (.error configErrMsg, []) := by
  obtain ⟨tok⟩ := env
  simp only [Env.token] at h
  subst h
  exact ⟨rfl, rfl⟩

/-- C1 witness at a concrete environment, backend and arguments. -/
theorem c1_missing_token_config_error_no_network_witness :
    getFileTool ⟨none⟩ (fun _ => ⟨200, "0"⟩) "abc" = (.error configErrMsg, []) ∧
    exportNodeTool ⟨none⟩ (fun _ => ⟨200, "0"⟩) ⟨"f", "n", "png", 1⟩ =
      (.error configErrMsg, []) :=
  c1_missing_token_config_error_no_network ⟨none⟩ (fun _ => ⟨200, "0"⟩) "abc"
    ⟨"f", "n", "png", 1⟩ rfl

/-- C6: on the GET path the first write is exactly the `initialized`
notification, every later write is the `ping` notification fired by the
30000 ms interval while the connection is open, no write happens after the
client disconnects, and the keep-alive timer is cancelled on disconnect. -/
theorem c6_sse_lifecycle (evs : List SseEvent) :
    sseRun evs =
      .sse (sseInitEvent :: List.replicate (sseTicksBeforeClose evs) ssePingEvent)
        (!sseHasClose evs) 30000 := by
  suffices h : sseLoop evs true =
      (List.replicate (sseTicksBeforeClose evs) ssePingEvent, !sseHasClose evs) by
    simp [sseRun, h]
  induction evs with
  | nil => rfl
  | cons e evs ih =>
    cases e with
    | tick => simp [sseLoop, sseTicksBeforeClose, sseHasClose, ih, List.replicate_succ]
    | close => simp [sseLoop, sseTicksBeforeClose, sseHasClose, sseLoop_closed]

/-- C7: a non-2xx backend response makes the `figma` helper fail with an
error carrying the status code and the response body text, after exactly one
issued request (no retry). -/
theorem c7_non2xx_backend_error_single_request (t path : String)
    (params : Option (List (String × String))) (backend : FigmaRequest → HttpResp)
    (ht : t ≠ "")
    (hbad : ¬(200 ≤ (backend (buildFigmaRequest t path params)).status ∧
        (backend (buildFigmaRequest t path params)).status ≤ 299)) :
    figma ⟨some t⟩ backend path params =
      (.error ("Figma " ++ natStr (backend (buildFigmaRequest t path params)).status ++ ": " ++
          (backend (buildFigmaRequest t path params)).bodyText),
        [buildFigmaRequest t path params]) := by
  simp [figma, ht, hbad]

/-- C7 witness: a stub backend answering 404 with body "err". -/
theorem c7_non2xx_backend_error_single_request_witness :
    figma ⟨some "tok"⟩ (fun _ => ⟨404, "err"⟩) "files/k" none =
      (.error "Figma 404: err", [buildFigmaRequest "tok" "files/k" none]) :=
  c7_non2xx_backend_error_single_request "tok" "files/k" none (fun _ => ⟨404, "err"⟩)
    (by decide) (by decide)

/-- C8 as stated is false on the code: with the credential present in the
environment but equal to the empty string, the fallback response's `env`
field is `false` although the credential is present. -/
theorem c8_counterexample_empty_token :
    (handler ⟨some ""⟩ (fun _ => ⟨200, "0"⟩) (.other "PUT") .missing []).1 =
      .res 200 (.obj (.cons "ok" (.bool true) (.cons "server" (.str "figma-mcp")
        (.cons "env" (.bool false) (.cons "methods"
          (.arr (.cons (.str "GET (SSE)") (.cons (.str "POST (JSON-RPC)") .nil))) .nil))))) ∧
    (Env.mk (some "")).token.isSome = true :=
  ⟨rfl, rfl⟩

/-- C8 amended: any method other than OPTIONS, GET and POST gets a 200
response whose body has exactly the fields `ok: true`,
`server: "figma-mcp"`, `env` — true iff a nonempty credential is present —
and the methods list, with no backend request. -/
theorem c8_fallback_status_response (env : Env) (backend : FigmaRequest → HttpResp)
    (b : ReqBody) (evs : List SseEvent) (m : String) :
    handler env backend (.other m) b evs =
      (.res 200 (.obj (.cons "ok" (.bool true) (.cons "server" (.str "figma-mcp")
        (.cons "env" (.bool (tokenTruthy env)) (.cons "methods"
          (.arr (.cons (.str "GET (SSE)") (.cons (.str "POST (JSON-RPC)") .nil))) .nil))))),
       []) := rfl

/-- C9: two identical get-file invocations against backends that return the
same response for the issued request produce identical results — in
particular byte-identical content payloads. -/
theorem c9_get_file_idempotent (env : Env) (b1 b2 : FigmaRequest → HttpResp)
    (fileKey : String)
    (h : ∀ t, env.token = some t →
      b1 (buildFigmaRequest t ("files/" ++ fileKey) none) =
      b2 (buildFigmaRequest t ("files/" ++ fileKey) none)) :
    getFileTool env b1 fileKey = getFileTool env b2 fileKey := by
  obtain ⟨tok⟩ := env
  cases tok with
  | none => rfl
  | some t =>
    have ht := h t rfl
    by_cases he : t = "" <;> simp [getFileTool, figma, he, ht]

/-- C9 witness: the same stub backend twice, at a concrete file key. -/
theorem c9_get_file_idempotent_witness :
    getFileTool ⟨some "tok"⟩ (fun _ => ⟨200, "\x7b\x7d"⟩) "key" =
      getFileTool ⟨some "tok"⟩ (fun _ => ⟨200, "\x7b\x7d"⟩) "key" :=
  c9_get_file_idempotent ⟨some "tok"⟩ (fun _ => ⟨200, "\x7b\x7d"⟩)
    (fun _ => ⟨200, "\x7b\x7d"⟩) "key" (fun _ _ => rfl)

/-- C10 as stated is false: quantified over every path and parameter map, a
path that itself contains the token value puts the token value into the
request URL (the helper is not what placed it there). -/
theorem c10_counterexample_token_in_path :
    ((figma ⟨some "secret"⟩ (fun _ => ⟨200, "0"⟩) "files/secret" none).2.map
        FigmaRequest.url) = ["https://api.figma.com/v1/files/secret"] ∧
    "secret".data <:+: "https://api.figma.com/v1/files/secret".data :=
  ⟨rfl, by decide⟩

/-- C10 amended: every request the helper issues targets exactly
`https://api.figma.com/v1/<path><query>`, carries the credential only in the
`X-Figma-Token` header, and the URL is independent of the token value — the
helper never injects the token into the URL, path or query string. -/
theorem c10_url_shape_token_only_in_header (t path : String)
    (params : Option (List (String × String))) (backend : FigmaRequest → HttpResp)
    (ht : t ≠ "") :
    (figma ⟨some t⟩ backend path params).2 = [buildFigmaRequest t path params] ∧
    (buildFigmaRequest t path params).url = figmaBase ++ path ++ searchSuffix (params.getD []) ∧
    (buildFigmaRequest t path params).headers = [("X-Figma-Token", t)] ∧
    ∀ t2 : String, (buildFigmaRequest t2 path params).url = (buildFigmaRequest t path params).url := by
  refine ⟨?_, rfl, rfl, fun t2 => rfl⟩
  by_cases h2xx : 200 ≤ (backend (buildFigmaRequest t path params)).status ∧
      (backend (buildFigmaRequest t path params)).status ≤ 299
  · cases hp : Json.parse (backend (buildFigmaRequest t path params)).bodyText <;>
      simp [figma, ht, h2xx, hp]
  · simp [figma, ht, h2xx]

/-- C10 amended witness at a concrete token, path and parameter list. -/
theorem c10_url_shape_token_only_in_header_witness :
    (figma ⟨some "tok"⟩ (fun _ => ⟨200, "0"⟩) "images/f" (some [("ids", "n1")])).2 =
      [buildFigmaRequest "tok" "images/f" (some [("ids", "n1")])] ∧
    (buildFigmaRequest "tok" "images/f" (some [("ids", "n1")])).url =
      figmaBase ++ "images/f" ++ searchSuffix [("ids", "n1")] ∧
    (buildFigmaRequest "tok" "images/f" (some [("ids", "n1")])).headers =
      [("X-Figma-Token", "tok")] ∧
    ∀ t2 : String, (buildFigmaRequest t2 "images/f" (some [("ids", "n1")])).url =
      (buildFigmaRequest "tok" "images/f" (some [("ids", "n1")])).url :=
  c10_url_shape_token_only_in_header "tok" "images/f" (some [("ids", "n1")])
    (fun _ => ⟨200, "0"⟩) (by decide)

/-- A tool-call envelope naming a tool and carrying an argument object. -/
def mkToolCall (name : String) (args : Json) : Json :=
  .obj (.cons "toolName" (.str name) (.cons "arguments" args .nil))

/-- Export arguments with only the two required fields present. -/
def exportArgsMin (fk nid : String) : Json :=
  .obj (.cons "fileKey" (.str fk) (.cons "nodeId" (.str nid) .nil))

/-- Export arguments with an explicit `scale`. -/
def exportArgsScale (fk nid : String) (q : Rat) : Json :=
  .obj (.cons "fileKey" (.str fk) (.cons "nodeId" (.str nid) (.cons "scale" (.num q) .nil)))

/-- Export arguments with an explicit `format`. -/
def exportArgsFormat (fk nid s : String) : Json :=
  .obj (.cons "fileKey" (.str fk) (.cons "nodeId" (.str nid) (.cons "format" (.str s) .nil)))

/-- C2 as stated is false on the code: an unparsable string body (here the
single character `{`) raises the `JSON.parse` exception outside the
`try`/`catch`, so the invocation ends in an uncaught error escaping the
handler — not in an HTTP 400 response. -/
theorem c2_counterexample_unparsable_body_uncaught :
    Json.parse "\x7b" = none ∧
    handlePost ⟨some "tok"⟩ (fun _ => ⟨200, "0"⟩) (.strB "\x7b") =
      (.uncaught jsonParseErrMsg, []) :=
  ⟨rfl, rfl⟩

/-- C2 amended: a missing body and a falsy decoded body get HTTP 400 with an
`error` field and never reach the invoker; every error the invoker raises is
caught and returned as HTTP 500 `{error: message}`; success passes the reply
through with HTTP 200; but an unparsable string body raises an uncaught
exception escaping the handler instead of an HTTP 400. -/
theorem c2_post_pipeline_error_mapping (env : Env) (backend : FigmaRequest → HttpResp)
    (b : ReqBody) :
    (b = .missing → handlePost env backend b = (.res 400 (errorBody "Missing JSON body"), [])) ∧
    (∀ s, b = .strB s → Json.parse s = none →
      handlePost env backend b = (.uncaught jsonParseErrMsg, [])) ∧
    (∀ j, jsBodyOf b = .ok (some j) → ¬j.truthy →
      handlePost env backend b = (.res 400 (errorBody "Missing JSON body"), [])) ∧
    (∀ j e log, jsBodyOf b = .ok (some j) → j.truthy →
      handleJSON env backend j = (.error e, log) →
      handlePost env backend b = (.res 500 (errorBody e), log)) ∧
    (∀ j r log, jsBodyOf b = .ok (some j) → j.truthy →
      handleJSON env backend j = (.ok r, log) →
      handlePost env backend b = (.res 200 r, log)) := by
  refine ⟨?_, ?_, ?_, ?_, ?_⟩
  · rintro rfl; rfl
  · rintro s rfl hp; simp [handlePost, jsBodyOf, hp]
  · intro j hj ht; simp [handlePost, hj, ht]
  · intro j e log hj ht hh; simp [handlePost, hj, ht, hh]
  · intro j r log hj ht hh; simp [handlePost, hj, ht, hh]

/-- C2 amended witness: a missing body gets the 400 `{error}` response. -/
theorem c2_post_pipeline_error_mapping_witness :
    handlePost ⟨some "tok"⟩ (fun _ => ⟨200, "0"⟩) .missing =
      (.res 400 (errorBody "Missing JSON body"), []) :=
  (c2_post_pipeline_error_mapping ⟨some "tok"⟩ (fun _ => ⟨200, "0"⟩) .missing).1 rfl

/-- C3 as stated is false on the code: a backend whose image map contains the
entry `"n1": null` — an entry for the requested node — still makes the
invocation fail with the "no image URL" error, because `null` is falsy. -/
theorem c3_counterexample_null_entry :
    (figma ⟨some "t"⟩ (fun _ => ⟨200, "\x7b\"images\":\x7b\"n1\":null\x7d\x7d"⟩) "images/f"
        (some [("ids", "n1"), ("format", "png"), ("scale", "1")])).1 =
      .ok (.obj (.cons "images" (.obj (.cons "n1" .null .nil)) .nil)) ∧
    ((Json.obj (.cons "images" (.obj (.cons "n1" .null .nil)) .nil)).getField "images").bind
        (fun im => im.getField "n1") = some .null ∧
    exportNodeTool ⟨some "t"⟩ (fun _ => ⟨200, "\x7b\"images\":\x7b\"n1\":null\x7d\x7d"⟩)
        ⟨"f", "n1", "png", 1⟩ =
      (.error noImageMsg,
        [buildFigmaRequest "t" "images/f" (some [("ids", "n1"), ("format", "png"), ("scale", "1")])]) :=
  ⟨rfl, rfl, rfl⟩

/-- C3 amended: when the backend document's image map holds a truthy URL for
the node, export-node succeeds with exactly one `text` item carrying it;
when the entry is absent — or present but falsy (`null` or the empty
string) — it fails with the "no image URL" error and returns no content. -/
theorem c3_export_node_image_lookup (env : Env) (backend : FigmaRequest → HttpResp)
    (a : ExportArgs) (doc : Json)
    (h : (figma env backend ("images/" ++ a.fileKey)
        (some [("ids", a.nodeId), ("format", a.format), ("scale", ratToString a.scale)])).1 =
      .ok doc) :
    (∀ url, (doc.getField "images").bind (fun im => im.getField a.nodeId) = some url →
      url.truthy → (exportNodeTool env backend a).1 = .ok ⟨[⟨"text", url⟩]⟩) ∧
    ((doc.getField "images").bind (fun im => im.getField a.nodeId) = none →
      (exportNodeTool env backend a).1 = .error noImageMsg) ∧
    (∀ url, (doc.getField "images").bind (fun im => im.getField a.nodeId) = some url →
      ¬url.truthy → (exportNodeTool env backend a).1 = .error noImageMsg) := by
  rcases hE : figma env backend ("images/" ++ a.fileKey)
      (some [("ids", a.nodeId), ("format", a.format), ("scale", ratToString a.scale)]) with ⟨r, log⟩
  rw [hE] at h
  simp only at h
  subst h
  refine ⟨?_, ?_, ?_⟩
  · intro url hu ht
    simp only [exportNodeTool, hE, hu, Option.bind_eq_bind] at *
    simp [hu, ht]
  · intro hu
    simp only [exportNodeTool, hE] at *
    simp [hu]
  · intro url hu ht
    simp only [exportNodeTool, hE] at *
    simp [hu, ht]

/-- C3 amended witness: a truthy URL entry is returned as the single text
item. -/
theorem c3_export_node_image_lookup_witness :
    (exportNodeTool ⟨some "t"⟩ (fun _ => ⟨200, "\x7b\"images\":\x7b\"n1\":\"u1\"\x7d\x7d"⟩)
        ⟨"f", "n1", "png", 1⟩).1 = .ok ⟨[⟨"text", .str "u1"⟩]⟩ :=
  (c3_export_node_image_lookup ⟨some "t"⟩
      (fun _ => ⟨200, "\x7b\"images\":\x7b\"n1\":\"u1\"\x7d\x7d"⟩) ⟨"f", "n1", "png", 1⟩
      (.obj (.cons "images" (.obj (.cons "n1" (.str "u1") .nil)) .nil)) rfl).1
    (.str "u1") rfl (by decide)

/-- C5: an out-of-range `scale` or a `format` outside png/svg is rejected by
validation with an error naming the offending field, before any backend call
(zero issued requests); omitted `format` and `scale` default to `"png"` and
`1` before the handler runs. -/
theorem c5_export_node_validation (env : Env) (backend : FigmaRequest → HttpResp)
    (fk nid : String) (q : Rat) (s : String) :
    (¬(mkRat 1 10 ≤ q ∧ q ≤ 4) →
      handleJSON env backend (mkToolCall "export-node" (exportArgsScale fk nid q)) =
        (.error scaleErrMsg, [])) ∧
    (s ≠ "png" → s ≠ "svg" →
      handleJSON env backend (mkToolCall "export-node" (exportArgsFormat fk nid s)) =
        (.error formatErrMsg, [])) ∧
    validateExportNode (exportArgsMin fk nid) = .ok ⟨fk, nid, "png", (1 : Rat)⟩ ∧
    "scale".data.isPrefixOf scaleErrMsg.data = true ∧
    "format".data.isPrefixOf formatErrMsg.data = true := by
  refine ⟨?_, ?_, ?_, by decide, by decide⟩
  · intro hq
    simp [handleJSON, mkToolCall, exportArgsScale, Json.getField, JsonObj.lookup,
      validateExportNode, requireString, hq, bind, Except.bind]
  · intro h1 h2
    simp [handleJSON, mkToolCall, exportArgsFormat, Json.getField, JsonObj.lookup,
      validateExportNode, requireString, h1, h2, bind, Except.bind]
  · simp [validateExportNode, exportArgsMin, Json.getField, JsonObj.lookup, requireString,
      bind, Except.bind, pure, Except.pure]

/-- C5 witness: scale 5 is rejected with the scale error and no request. -/
theorem c5_export_node_validation_witness :
    handleJSON ⟨some "tok"⟩ (fun _ => ⟨200, "0"⟩)
      (mkToolCall "export-node" (exportArgsScale "f" "n" (mkRat 5 1))) =
      (.error scaleErrMsg, []) ∧
    validateExportNode (exportArgsMin "f" "n") = .ok ⟨"f", "n", "png", (1 : Rat)⟩ :=
  ⟨(c5_export_node_validation ⟨some "tok"⟩ (fun _ => ⟨200, "0"⟩) "f" "n" (mkRat 5 1) "png").1
      (by decide),
    (c5_export_node_validation ⟨some "tok"⟩ (fun _ => ⟨200, "0"⟩) "f" "n" (mkRat 5 1) "png").2.2.1⟩

/-! Auxiliary facts for the stringify/parse roundtrip behind C4. -/

theorem isDigitCh_digitCh (k : Nat) (h : k < 10) : isDigitCh (digitCh k) = true := by
  interval_cases k <;> decide

theorem digitVal_digitCh (k : Nat) (h : k < 10) : digitVal (digitCh k) = k := by
  interval_cases k <;> decide

theorem ws_false_of_digit {c : Char} (h : isDigitCh c = true) : isWsChar c = false := by
  simp only [isWsChar, Bool.or_eq_false_iff, decide_eq_false_iff_not]
  refine ⟨⟨⟨?_, ?_⟩, ?_⟩, ?_⟩ <;> rintro rfl <;> simp [isDigitCh] at h

theorem digit_ne {c : Char} (h : isDigitCh c = true) (d : Char) (hd : isDigitCh d = false) :
    c ≠ d := by
  intro hc
  subst hc
  rw [h] at hd
  cases hd

theorem skipWs_cons_not {c : Char} (s : List Char) (h : isWsChar c = false) :
    skipWs (c :: s) = c :: s := by
  simp [skipWs, h]

theorem skipWs_cons_ws {c : Char} (s : List Char) (h : isWsChar c = true) :
    skipWs (c :: s) = skipWs s := by
  simp [skipWs, h]

theorem skipWs_replicate (m : Nat) (s : List Char) :
    skipWs (List.replicate m ' ' ++ s) = skipWs s := by
  induction m with
  | zero => rfl
  | succ m ih =>
    rw [List.replicate_succ, List.cons_append,
      skipWs_cons_ws _ (show isWsChar ' ' = true by decide)]
    exact ih

theorem natCharsAux_congr (n : Nat) : ∀ f1 f2, n ≤ f1 → n ≤ f2 →
    natCharsAux f1 n = natCharsAux f2 n := by
  induction n using Nat.strong_induction_on with
  | _ n ih =>
    intro f1 f2 h1 h2
    match f1, f2 with
    | 0, 0 => rfl
    | 0, g + 1 =>
      have hn : n = 0 := by omega
      subst hn
      simp [natCharsAux]
    | g + 1, 0 =>
      have hn : n = 0 := by omega
      subst hn
      simp [natCharsAux]
    | g1 + 1, g2 + 1 =>
      by_cases hn : n < 10
      · simp [natCharsAux, hn]
      · have hdiv : n / 10 < n := Nat.div_lt_self (by omega) (by omega)
        simp only [natCharsAux, if_neg hn]
        rw [ih (n / 10) hdiv g1 g2 (by omega) (by omega)]

theorem natChars_step (n : Nat) :
    natChars n = if n < 10 then [digitCh n] else natChars (n / 10) ++ [digitCh (n % 10)] := by
  unfold natChars
  match n with
  | 0 => simp [natCharsAux]
  | m + 1 =>
    by_cases h : m + 1 < 10
    · simp [natCharsAux, h]
    · have hdiv : (m + 1) / 10 < m + 1 := Nat.div_lt_self (by omega) (by omega)
      simp only [natCharsAux, if_neg h]
      rw [natCharsAux_congr ((m + 1) / 10) m ((m + 1) / 10) (by omega) (by omega)]

theorem natChars_head (n : Nat) : ∃ k tl, natChars n = digitCh k :: tl ∧ k < 10 := by
  induction n using Nat.strong_induction_on with
  | _ n ih =>
    rw [natChars_step]
    by_cases h : n < 10
    · exact ⟨n, [], by simp [h], h⟩
    · have hdiv : n / 10 < n := Nat.div_lt_self (by omega) (by omega)
      obtain ⟨k, tl, heq, hk⟩ := ih (n / 10) hdiv
      exact ⟨k, tl ++ [digitCh (n % 10)], by simp [h, heq], hk⟩

theorem natChars_all_digits (n : Nat) : ∀ c ∈ natChars n, isDigitCh c = true := by
  induction n using Nat.strong_induction_on with
  | _ n ih =>
    rw [natChars_step]
    by_cases h : n < 10
    · simpa [h] using isDigitCh_digitCh n h
    · have hdiv : n / 10 < n := Nat.div_lt_self (by omega) (by omega)
      simp only [if_neg h, List.mem_append, List.mem_singleton]
      rintro c (hc | rfl)
      · exact ih (n / 10) hdiv c hc
      · exact isDigitCh_digitCh (n % 10) (Nat.mod_lt n (by omega))

theorem natChars_foldl (n : Nat) : ∀ acc,
    List.foldl (fun a c => a * 10 + digitVal c) acc (natChars n) =
      acc * 10 ^ (natChars n).length + n := by
  induction n using Nat.strong_induction_on with
  | _ n ih =>
    intro acc
    rw [natChars_step]
    by_cases h : n < 10
    · simp [h, digitVal_digitCh n h]
    · have hdiv : n / 10 < n := Nat.div_lt_self (by omega) (by omega)
      have hmod : n % 10 < 10 := Nat.mod_lt n (by omega)
      simp only [if_neg h, List.foldl_append, List.length_append, List.length_singleton,
        List.foldl_cons, List.foldl_nil]
      rw [ih (n / 10) hdiv acc, digitVal_digitCh (n % 10) hmod, pow_succ]
      have := Nat.div_add_mod n 10
      set L := (natChars (n / 10)).length
      ring_nf
      omega

theorem natChars_len_le (n k : Nat) (hk : 1 ≤ k) (h : n < 10 ^ k) :
    (natChars n).length ≤ k := by
  induction n using Nat.strong_induction_on generalizing k with
  | _ n ih =>
    rw [natChars_step]
    by_cases hn : n < 10
    · simp only [if_pos hn, List.length_singleton]
      exact hk
    · have hdiv : n / 10 < n := Nat.div_lt_self (by omega) (by omega)
      have hk2 : 2 ≤ k := by
        by_contra hlt
        have : k = 1 := by omega
        subst this
        simp at h
        omega
      have hbound : n / 10 < 10 ^ (k - 1) := by
        have h10 : 10 ^ k = 10 ^ (k - 1) * 10 := by
          rw [← pow_succ]
          congr 1
          omega
        rw [Nat.div_lt_iff_lt_mul (by omega)]
        omega
      have := ih (n / 10) hdiv (k - 1) (by omega) hbound
      simp only [if_neg hn, List.length_append, List.length_singleton]
      omega

/-- The next character (if any) is not a digit. -/
def noDigitStart : List Char → Prop
  | [] => True
  | c :: _ => isDigitCh c = false

/-- The rest of the input cannot extend a number literal. -/
def numBoundary : List Char → Prop
  | [] => True
  | c :: _ => isDigitCh c = false ∧ c ≠ '.'

theorem noDigitStart_of_numBoundary {r : List Char} (h : numBoundary r) : noDigitStart r := by
  cases r with
  | nil => trivial
  | cons c t => exact h.1

theorem parseDigits_spec (ds : List Char) : ∀ acc cnt rest, (∀ c ∈ ds, isDigitCh c = true) →
    noDigitStart rest →
    parseDigits acc cnt (ds ++ rest) =
      (List.foldl (fun a c => a * 10 + digitVal c) acc ds, cnt + ds.length, rest) := by
  induction ds with
  | nil =>
    intro acc cnt rest _ hrest
    cases rest with
    | nil => rfl
    | cons c r =>
      have : isDigitCh c = false := hrest
      simp [parseDigits, this]
  | cons d ds ih =>
    intro acc cnt rest hds hrest
    have hd := hds d (by simp)
    rw [List.cons_append]
    simp only [parseDigits, hd, if_true]
    rw [ih _ _ _ (fun c hc => hds c (by simp [hc])) hrest]
    simp only [List.foldl_cons, List.length_cons]
    have hc : cnt + 1 + ds.length = cnt + (ds.length + 1) := by omega
    rw [hc]

theorem foldl_zeros (m : Nat) :
    List.foldl (fun a c => a * 10 + digitVal c) 0 (List.replicate m '0') = 0 := by
  induction m with
  | zero => rfl
  | succ m ih => simpa [List.replicate_succ] using ih

theorem parseDigits_natChars (n : Nat) (rest : List Char) (hrest : noDigitStart rest) :
    parseDigits 0 0 (natChars n ++ rest) = (n, (natChars n).length, rest) := by
  rw [parseDigits_spec (natChars n) 0 0 rest (natChars_all_digits n) hrest, natChars_foldl n 0]
  simp

theorem parseNumCore_start {neg : Bool} {c : Char} (r : List Char) (h : isDigitCh c = true) :
    parseNumCore neg (c :: r) = parseNumCore neg (c :: r) := rfl

theorem parseNumCore_digits (neg : Bool) (ip : Nat) (rest : List Char) (hrest : numBoundary rest) :
    parseNumCore neg (natChars ip ++ rest) = some (.num (mkRat (intSign neg ip) 1), rest) := by
  obtain ⟨k0, tl, hh, hk0⟩ := natChars_head ip
  have hdig : isDigitCh (digitCh k0) = true := isDigitCh_digitCh k0 hk0
  have hp1 : parseDigits (digitVal (digitCh k0)) 1 (tl ++ rest) = (ip, (natChars ip).length, rest) := by
    have h0 : parseDigits 0 0 ((digitCh k0 :: tl) ++ rest) =
        parseDigits (digitVal (digitCh k0)) 1 (tl ++ rest) := by
      simp [parseDigits, hdig]
    rw [← h0, ← hh, parseDigits_natChars ip rest (noDigitStart_of_numBoundary hrest)]
  rw [hh, List.cons_append]
  simp only [parseNumCore, hdig, if_true, hp1]
  cases rest with
  | nil => rfl
  | cons c r2 =>
    obtain ⟨hc1, hc2⟩ := hrest
    simp [hc2]

theorem parseNumCore_digits_frac (neg : Bool) (ip fr e : Nat) (he : 1 ≤ e) (hfr : fr < 10 ^ e)
    (rest : List Char) (hrest : numBoundary rest) :
    parseNumCore neg
        ((natChars ip ++ '.' :: (List.replicate (e - (natChars fr).length) '0' ++ natChars fr)) ++ rest) =
      some (.num (mkRat (intSign neg (ip * 10 ^ e + fr)) (10 ^ e)), rest) := by
  have hle : (natChars fr).length ≤ e := natChars_len_le fr e he hfr
  obtain ⟨f0, fs, hFc⟩ : ∃ f0 fs,
      List.replicate (e - (natChars fr).length) '0' ++ natChars fr = f0 :: fs := by
    cases hc : List.replicate (e - (natChars fr).length) '0' ++ natChars fr with
    | nil =>
      rcases List.append_eq_nil.mp hc with ⟨-, h2⟩
      obtain ⟨k, tl, hh, -⟩ := natChars_head fr
      rw [hh] at h2
      cases h2
    | cons a b => exact ⟨a, b, rfl⟩
  have hFdig : ∀ c ∈ (f0 :: fs), isDigitCh c = true := by
    rw [← hFc]
    intro c hc
    rcases List.mem_append.mp hc with h | h
    · rw [List.eq_of_mem_replicate h]; decide
    · exact natChars_all_digits fr c h
  have hFlen : fs.length + 1 = e := by
    have hlen := congrArg List.length hFc
    simp at hlen
    omega
  have hFfold : List.foldl (fun a c => a * 10 + digitVal c) 0 (f0 :: fs) = fr := by
    rw [← hFc, List.foldl_append, foldl_zeros, natChars_foldl fr 0]
    simp
  have hf0 : isDigitCh f0 = true := hFdig f0 (by simp)
  have hp2 : parseDigits (digitVal f0) 1 (fs ++ rest) = (fr, e, rest) := by
    have h0 : parseDigits 0 0 ((f0 :: fs) ++ rest) =
        parseDigits (digitVal f0) 1 (fs ++ rest) := by
      simp [parseDigits, hf0]
    rw [← h0, parseDigits_spec (f0 :: fs) 0 0 rest hFdig (noDigitStart_of_numBoundary hrest),
      hFfold]
    refine Prod.ext rfl (Prod.ext ?_ rfl)
    simp
    omega
  obtain ⟨k0, tl, hh, hk0⟩ := natChars_head ip
  have hdig : isDigitCh (digitCh k0) = true := isDigitCh_digitCh k0 hk0
  have hdot : noDigitStart ('.' :: (f0 :: fs ++ rest)) := by
    show isDigitCh '.' = false
    decide
  have hp1 : parseDigits (digitVal (digitCh k0)) 1 (tl ++ '.' :: (f0 :: fs ++ rest)) =
      (ip, (natChars ip).length, '.' :: (f0 :: fs ++ rest)) := by
    have h0 : parseDigits 0 0 (natChars ip ++ '.' :: (f0 :: fs ++ rest)) =
        parseDigits (digitVal (digitCh k0)) 1 (tl ++ '.' :: (f0 :: fs ++ rest)) := by
      rw [hh, List.cons_append]
      simp [parseDigits, hdig]
    rw [← h0, parseDigits_spec (natChars ip) 0 0 _ (natChars_all_digits ip) hdot,
      natChars_foldl ip 0]
    simp
  have hinput : (natChars ip ++ '.' ::
        (List.replicate (e - (natChars fr).length) '0' ++ natChars fr)) ++ rest =
      digitCh k0 :: (tl ++ '.' :: (f0 :: fs ++ rest)) := by
    rw [hFc, hh]
    simp
  rw [hinput]
  simp only [parseNumCore, hdig, if_true, hp1]
  simp [hf0, hp2]

theorem mkRat_scaled_pos (q : Rat) (e : Nat) (hdvd : q.den ∣ 10 ^ e) (h : 0 ≤ q.num) :
    mkRat ((q.num.natAbs * (10 ^ e / q.den) : Nat) : Int) (10 ^ e) = q := by
  set k := 10 ^ e / q.den with hk
  have hkden : q.den * k = 10 ^ e := Nat.mul_div_cancel' hdvd
  have hpow : (0:Nat) < 10 ^ e := pow_pos (by norm_num) e
  have hk0 : k ≠ 0 := by
    intro h0
    rw [h0, Nat.mul_zero] at hkden
    omega
  have habs : ((q.num.natAbs : Nat) : Int) = q.num := Int.natAbs_of_nonneg h
  rw [Nat.cast_mul, habs, ← hkden, Rat.mkRat_mul_right hk0, Rat.mkRat_self]

theorem mkRat_scaled_neg (q : Rat) (e : Nat) (hdvd : q.den ∣ 10 ^ e) (h : q.num < 0) :
    mkRat (-((q.num.natAbs * (10 ^ e / q.den) : Nat) : Int)) (10 ^ e) = q := by
  set k := 10 ^ e / q.den with hk
  have hkden : q.den * k = 10 ^ e := Nat.mul_div_cancel' hdvd
  have hpow : (0:Nat) < 10 ^ e := pow_pos (by norm_num) e
  have hk0 : k ≠ 0 := by
    intro h0
    rw [h0, Nat.mul_zero] at hkden
    omega
  have habs : ((q.num.natAbs : Nat) : Int) = -q.num := Int.ofNat_natAbs_of_nonpos (le_of_lt h)
  rw [Nat.cast_mul, habs]
  have hmul : -(-q.num * (k : Int)) = q.num * (k : Int) := by ring
  rw [hmul, ← hkden, Rat.mkRat_mul_right hk0, Rat.mkRat_self]

/-- The pretty printer's number output, with its `let`s unfolded. -/
theorem numChars_shape (q : Rat) :
    numChars q = (if q.num < 0 then ['-'] else []) ++
      natChars (q.num.natAbs * (10 ^ decExp q.den / q.den) / 10 ^ decExp q.den) ++
      (if decExp q.den = 0 then []
       else '.' :: (List.replicate (decExp q.den -
           (natChars (q.num.natAbs * (10 ^ decExp q.den / q.den) % 10 ^ decExp q.den)).length) '0' ++
         natChars (q.num.natAbs * (10 ^ decExp q.den / q.den) % 10 ^ decExp q.den))) := rfl

theorem parseNum_natChars_entry (n : Nat) (X : List Char) :
    parseNum (natChars n ++ X) = parseNumCore false (natChars n ++ X) := by
  obtain ⟨k0, tl, hh, hk0⟩ := natChars_head n
  have hne : digitCh k0 ≠ '-' := digit_ne (isDigitCh_digitCh k0 hk0) '-' (by decide)
  rw [hh, List.cons_append]
  simp [parseNum, hne]

theorem parseNum_minus (X : List Char) : parseNum ('-' :: X) = parseNumCore true X := by
  simp [parseNum]

theorem intSign_true (n : Nat) : intSign true n = -(n : Int) := rfl

theorem intSign_false (n : Nat) : intSign false n = (n : Int) := rfl

/-- Parsing inverts the number printer on finite-decimal rationals. -/
theorem parseNum_numChars (q : Rat) (hgood : goodRat q = true) (rest : List Char)
    (hrest : numBoundary rest) :
    parseNum (numChars q ++ rest) = some (.num q, rest) := by
  have hdvd : q.den ∣ 10 ^ decExp q.den := by
    simp only [goodRat] at hgood
    exact of_decide_eq_true hgood
  have hpow : (0:Nat) < 10 ^ decExp q.den := pow_pos (by norm_num) _
  rw [numChars_shape]
  by_cases hneg : q.num < 0 <;> by_cases he0 : decExp q.den = 0
  · -- negative, integer-valued
    have hv := mkRat_scaled_neg q 0 (by rwa [he0] at hdvd) hneg
    simp only [pow_zero, Nat.div_one] at hv
    rw [he0]
    simp only [if_pos hneg, if_pos rfl, ite_true, pow_zero, Nat.div_one, List.append_nil,
      List.singleton_append, List.cons_append, List.nil_append, parseNum_minus]
    rw [parseNumCore_digits true _ rest hrest, intSign_true, hv]
  · -- negative, with a fraction part
    have he1 : 1 ≤ decExp q.den := by omega
    have hfr : q.num.natAbs * (10 ^ decExp q.den / q.den) % 10 ^ decExp q.den <
        10 ^ decExp q.den := Nat.mod_lt _ hpow
    have hv := mkRat_scaled_neg q (decExp q.den) hdvd hneg
    simp only [if_pos hneg, if_neg he0, List.singleton_append, List.cons_append,
      List.nil_append, parseNum_minus]
    rw [parseNumCore_digits_frac true _ _ _ he1 hfr rest hrest, Nat.div_add_mod',
      intSign_true, hv]
  · -- nonnegative, integer-valued
    have hv := mkRat_scaled_pos q 0 (by rwa [he0] at hdvd) (le_of_not_lt hneg)
    simp only [pow_zero, Nat.div_one] at hv
    rw [he0]
    simp only [if_neg hneg, if_pos rfl, ite_true, pow_zero, Nat.div_one, List.append_nil,
      List.nil_append]
    rw [parseNum_natChars_entry, parseNumCore_digits false _ rest hrest, intSign_false, hv]
  · -- nonnegative, with a fraction part
    have he1 : 1 ≤ decExp q.den := by omega
    have hfr : q.num.natAbs * (10 ^ decExp q.den / q.den) % 10 ^ decExp q.den <
        10 ^ decExp q.den := Nat.mod_lt _ hpow
    have hv := mkRat_scaled_pos q (decExp q.den) hdvd (le_of_not_lt hneg)
    simp only [if_neg hneg, if_neg he0, List.nil_append]
    rw [List.append_assoc, parseNum_natChars_entry, ← List.append_assoc,
      parseNumCore_digits_frac false _ _ _ he1 hfr rest hrest, Nat.div_add_mod',
      intSign_false, hv]

theorem hexVal_hexCh (k : Nat) (h : k < 16) : hexVal (hexCh k) = some k := by
  interval_cases k <;> decide

theorem escString_cons (c : Char) (cs : List Char) :
    escString (c :: cs) = escChar c ++ escString cs := rfl

/-- Parsing a string body inverts the escaper. -/
theorem parseStrBody_escString (cs : List Char) (rest : List Char) :
    parseStrBody (escString cs ++ '"' :: rest) = some (cs, rest) := by
  induction cs with
  | nil =>
    show parseStrBody ('"' :: rest) = some ([], rest)
    unfold parseStrBody
    simp
  | cons c cs ih =>
    rw [escString_cons, List.append_assoc]
    by_cases h1 : c = '"'
    · subst h1; simp only [escChar, if_pos rfl, List.cons_append, List.nil_append]
      unfold parseStrBody; simp [escCode, ih]
    · by_cases h2 : c = '\\'
      · subst h2
        simp only [escChar, reduceIte, List.cons_append, List.nil_append]
        unfold parseStrBody; simp [escCode, ih]
      · by_cases h3 : c = '\n'
        · subst h3
          simp only [escChar, reduceIte, List.cons_append, List.nil_append]
          unfold parseStrBody; simp [escCode, ih]
        · by_cases h4 : c = '\r'
          · subst h4
            simp only [escChar, reduceIte, List.cons_append, List.nil_append]
            unfold parseStrBody; simp [escCode, ih]
          · by_cases h5 : c = '\t'
            · subst h5
              simp only [escChar, reduceIte, List.cons_append, List.nil_append]
              unfold parseStrBody; simp [escCode, ih]
            · by_cases h6 : c = '\x08'
              · subst h6
                simp only [escChar, reduceIte, List.cons_append, List.nil_append]
                unfold parseStrBody; simp [escCode, ih]
              · by_cases h7 : c = '\x0c'
                · subst h7
                  simp only [escChar, reduceIte, List.cons_append, List.nil_append]
                  unfold parseStrBody; simp [escCode, ih]
                · by_cases h8 : c.toNat < 32
                  · have hv0 : hexVal '0' = some 0 := by decide
                    have hv1 : hexVal (hexCh (c.toNat / 16)) = some (c.toNat / 16) :=
                      hexVal_hexCh _ (by omega)
                    have hv2 : hexVal (hexCh (c.toNat % 16)) = some (c.toNat % 16) :=
                      hexVal_hexCh _ (by omega)
                    have hchar : Char.ofNat (((0 * 16 + 0) * 16 + c.toNat / 16) * 16 +
                        c.toNat % 16) = c := by
                      have harith : ((0 * 16 + 0) * 16 + c.toNat / 16) * 16 + c.toNat % 16 =
                          c.toNat := by omega
                      rw [harith, Char.ofNat_toNat]
                    have hchar2 : Char.ofNat (c.toNat / 16 * 16 + c.toNat % 16) = c := by
                      have harith : c.toNat / 16 * 16 + c.toNat % 16 = c.toNat := by omega
                      rw [harith, Char.ofNat_toNat]
                    simp only [escChar, if_neg h1, if_neg h2, if_neg h3, if_neg h4, if_neg h5,
                      if_neg h6, if_neg h7, if_pos h8, List.cons_append, List.nil_append]
                    unfold parseStrBody
                    simp [hv0, hv1, hv2, ih, hchar, hchar2]
                  · simp only [escChar, if_neg h1, if_neg h2, if_neg h3, if_neg h4, if_neg h5,
                      if_neg h6, if_neg h7, if_neg h8, List.cons_append, List.nil_append]
                    unfold parseStrBody
                    simp [h1, h2, ih]

theorem strChars_shape (s : String) (rest : List Char) :
    strChars s ++ rest = '"' :: (escString s.data ++ '"' :: rest) := by
  simp [strChars]

theorem jChars_null (d : Nat) : jChars .null d = ['n', 'u', 'l', 'l'] := rfl

theorem jChars_true (d : Nat) : jChars (.bool true) d = ['t', 'r', 'u', 'e'] := rfl

theorem jChars_false (d : Nat) : jChars (.bool false) d = ['f', 'a', 'l', 's', 'e'] := rfl

theorem jChars_num (q : Rat) (d : Nat) : jChars (.num q) d = numChars q := rfl

theorem jChars_str (s : String) (d : Nat) : jChars (.str s) d = strChars s := rfl

theorem jChars_arr_nil (d : Nat) : jChars (.arr .nil) d = ['[', ']'] := rfl

theorem jChars_arr_cons (v : Json) (t : JsonList) (d : Nat) :
    jChars (.arr (.cons v t)) d =
      '[' :: '\n' :: (jind (d + 1) ++ jChars v (d + 1) ++ jlTail t d) := rfl

theorem jChars_obj_nil (d : Nat) : jChars (.obj .nil) d = ['{', '}'] := rfl

theorem jChars_obj_cons (k : String) (v : Json) (t : JsonObj) (d : Nat) :
    jChars (.obj (.cons k v t)) d =
      '{' :: '\n' :: (jind (d + 1) ++ strChars k ++ ':' :: ' ' :: jChars v (d + 1) ++ joTail t d) :=
  rfl

theorem jlTail_nil (d : Nat) : jlTail .nil d = '\n' :: (jind d ++ [']']) := rfl

theorem jlTail_cons (v : Json) (t : JsonList) (d : Nat) :
    jlTail (.cons v t) d = ',' :: '\n' :: (jind (d + 1) ++ jChars v (d + 1) ++ jlTail t d) := rfl

theorem joTail_nil (d : Nat) : joTail .nil d = '\n' :: (jind d ++ ['}']) := rfl

theorem joTail_cons (k : String) (v : Json) (t : JsonObj) (d : Nat) :
    joTail (.cons k v t) d =
      ',' :: '\n' :: (jind (d + 1) ++ strChars k ++ ':' :: ' ' :: jChars v (d + 1) ++ joTail t d) :=
  rfl

theorem numChars_head (q : Rat) :
    ∃ c r, numChars q = c :: r ∧ (c = '-' ∨ isDigitCh c = true) := by
  rw [numChars_shape]
  by_cases hneg : q.num < 0
  · exact ⟨'-', _, by rw [if_pos hneg]; rfl, Or.inl rfl⟩
  · obtain ⟨k0, tl, hh, hk0⟩ := natChars_head
      (q.num.natAbs * (10 ^ decExp q.den / q.den) / 10 ^ decExp q.den)
    rw [if_neg hneg, hh]
    exact ⟨digitCh k0, _, rfl, Or.inr (isDigitCh_digitCh k0 hk0)⟩

/-- The first character of a printed value: never whitespace and never a
container-closing or separating character. -/
theorem jChars_head (v : Json) (d : Nat) :
    ∃ c r, jChars v d = c :: r ∧ isWsChar c = false ∧ c ≠ ']' ∧ c ≠ '}' ∧ c ≠ ',' := by
  cases v with
  | null => exact ⟨'n', _, rfl, by decide, by decide, by decide, by decide⟩
  | bool b =>
    cases b
    · exact ⟨'f', _, rfl, by decide, by decide, by decide, by decide⟩
    · exact ⟨'t', _, rfl, by decide, by decide, by decide, by decide⟩
  | num q =>
    obtain ⟨c, r, hh, hc⟩ := numChars_head q
    refine ⟨c, r, by rw [jChars_num, hh], ?_, ?_, ?_, ?_⟩
    · rcases hc with rfl | hc
      · decide
      · exact ws_false_of_digit hc
    · rcases hc with rfl | hc
      · decide
      · exact digit_ne hc ']' (by decide)
    · rcases hc with rfl | hc
      · decide
      · exact digit_ne hc '}' (by decide)
    · rcases hc with rfl | hc
      · decide
      · exact digit_ne hc ',' (by decide)
  | str s => exact ⟨'"', _, rfl, by decide, by decide, by decide, by decide⟩
  | arr l =>
    cases l
    · exact ⟨'[', _, rfl, by decide, by decide, by decide, by decide⟩
    · exact ⟨'[', _, rfl, by decide, by decide, by decide, by decide⟩
  | obj m =>
    cases m
    · exact ⟨'{', _, rfl, by decide, by decide, by decide, by decide⟩
    · exact ⟨'{', _, rfl, by decide, by decide, by decide, by decide⟩

theorem numBoundary_jlTail (t : JsonList) (d : Nat) (rest : List Char) :
    numBoundary (jlTail t d ++ rest) := by
  cases t
  · rw [jlTail_nil]
    exact ⟨by decide, by decide⟩
  · rw [jlTail_cons]
    exact ⟨by decide, by decide⟩

theorem numBoundary_joTail (o : JsonObj) (d : Nat) (rest : List Char) :
    numBoundary (joTail o d ++ rest) := by
  cases o
  · rw [joTail_nil]
    exact ⟨by decide, by decide⟩
  · rw [joTail_cons]
    exact ⟨by decide, by decide⟩

theorem jsize_pos (v : Json) : 1 ≤ jsize v := by
  cases v with
  | arr l => cases l <;> simp [jsize] <;> omega
  | obj m => cases m <;> simp [jsize] <;> omega
  | null => simp [jsize]
  | bool b => simp [jsize]
  | num q => simp [jsize]
  | str s => simp [jsize]

theorem jlsize_pos (t : JsonList) : 1 ≤ jlsize t := by
  cases t <;> simp [jlsize] <;> omega

theorem josize_pos (o : JsonObj) : 1 ≤ josize o := by
  cases o <;> simp [josize] <;> omega

theorem skipWs_jind (d : Nat) (s : List Char) : skipWs (jind d ++ s) = skipWs s :=
  skipWs_replicate (2 * d) s

theorem parseVal_ws_cons (fuel : Nat) (c : Char) (s : List Char) (h : isWsChar c = true) :
    parseVal fuel (c :: s) = parseVal fuel s := by
  cases fuel with
  | zero => rfl
  | succ g =>
    unfold parseVal
    rw [skipWs_cons_ws _ h]

theorem parseVal_jind (fuel d : Nat) (s : List Char) :
    parseVal fuel (jind d ++ s) = parseVal fuel s := by
  cases fuel with
  | zero => rfl
  | succ g =>
    unfold parseVal
    rw [skipWs_jind]

theorem stringMk_data (s : String) : String.mk s.data = s := rfl

theorem parseMemberVal_print (g : Nat) (v : Json) (depth : Nat) (Y : List Char)
    (hv : parseVal g (jChars v depth ++ Y) = some (v, Y)) :
    parseMemberVal (g + 1) (':' :: ' ' :: (jChars v depth ++ Y)) = some (v, Y) := by
  unfold parseMemberVal
  rw [skipWs_cons_not _ (by decide)]
  simp only [reduceIte]
  rw [parseVal_ws_cons _ _ _ (by decide), hv]

/-- The parser inverts the pretty printer: values, array tails and object
tails, simultaneously by strong induction on the parser's fuel. -/
theorem roundtrip_all (fuel : Nat) :
    (∀ d depth rest, Json.goodNums d = true → jsize d ≤ fuel → numBoundary rest →
      parseVal fuel (jChars d depth ++ rest) = some (d, rest)) ∧
    (∀ t depth rest, JsonList.goodNums t = true → jlsize t ≤ fuel →
      parseListTail fuel (jlTail t depth ++ rest) = some (t, rest)) ∧
    (∀ o depth rest, JsonObj.goodNums o = true → josize o ≤ fuel →
      parseObjTail fuel (joTail o depth ++ rest) = some (o, rest)) := by
  induction fuel using Nat.strong_induction_on with
  | _ fuel ih =>
  refine ⟨?_, ?_, ?_⟩
  · -- values
    intro d depth rest hgood hsize hrest
    cases fuel with
    | zero =>
      have := jsize_pos d
      omega
    | succ g =>
    cases d with
    | null =>
      rw [jChars_null]
      unfold parseVal
      rw [List.cons_append, skipWs_cons_not _ (by decide)]
      simp [stripPre]
    | bool b =>
      cases b
      · rw [jChars_false]
        unfold parseVal
        rw [List.cons_append, skipWs_cons_not _ (by decide)]
        simp [stripPre]
      · rw [jChars_true]
        unfold parseVal
        rw [List.cons_append, skipWs_cons_not _ (by decide)]
        simp [stripPre]
    | num q =>
      rw [jChars_num]
      have hgq : goodRat q = true := by simpa [Json.goodNums] using hgood
      have hparse := parseNum_numChars q hgq rest hrest
      obtain ⟨c, r, hh, hc⟩ := numChars_head q
      rw [hh, List.cons_append]
      rw [hh, List.cons_append] at hparse
      unfold parseVal
      rcases hc with rfl | hdig
      · rw [skipWs_cons_not _ (by decide)]
        simp only [reduceIte]
        exact hparse
      · rw [skipWs_cons_not _ (ws_false_of_digit hdig)]
        simp only [digit_ne hdig 'n' (by decide), digit_ne hdig 't' (by decide),
          digit_ne hdig 'f' (by decide), digit_ne hdig '"' (by decide),
          digit_ne hdig '[' (by decide), digit_ne hdig '{' (by decide), ite_false]
        exact hparse
    | str s =>
      rw [jChars_str, strChars_shape]
      unfold parseVal
      rw [skipWs_cons_not _ (by decide)]
      simp only [reduceIte]
      rw [parseStrBody_escString]
      simp [stringMk_data]
    | arr l =>
      cases l with
      | nil =>
        rw [jChars_arr_nil]
        unfold parseVal
        rw [List.cons_append, skipWs_cons_not _ (by decide)]
        simp only [reduceIte]
        rw [List.singleton_append, skipWs_cons_not _ (by decide)]
        simp
      | cons v t =>
        rw [jChars_arr_cons]
        simp only [Json.goodNums, JsonList.goodNums, Bool.and_eq_true] at hgood
        obtain ⟨hgv, hgt⟩ := hgood
        have hsz : 1 + jsize v + jlsize t ≤ g + 1 := by simpa [jsize] using hsize
        have hpv := jsize_pos v
        have hpt := jlsize_pos t
        obtain ⟨c1, r1, hB, hws1, hne1, hne2, hne3⟩ := jChars_head v (depth + 1)
        have ihV := (ih g (by omega)).1 v (depth + 1) (jlTail t depth ++ rest) hgv
          (by omega) (numBoundary_jlTail t depth rest)
        have ihL := (ih g (by omega)).2.1 t depth rest hgt (by omega)
        unfold parseVal
        rw [List.cons_append, List.cons_append, skipWs_cons_not _ (by decide)]
        simp only [reduceIte]
        rw [skipWs_cons_ws _ (by decide), List.append_assoc, List.append_assoc, skipWs_jind,
          hB, List.cons_append, skipWs_cons_not _ hws1]
        simp only [hne1, ite_false]
        rw [if_neg (by decide : ¬('[' = 'n')), if_neg (by decide : ¬('[' = 't')),
          if_neg (by decide : ¬('[' = 'f')), if_neg (by decide : ¬('[' = '"'))]
        have hBA : c1 :: (r1 ++ (jlTail t depth ++ rest)) =
            jChars v (depth + 1) ++ (jlTail t depth ++ rest) := by
          rw [hB, List.cons_append]
        rw [hBA, ihV]
        simp only []
        rw [ihL]
    | obj m =>
      cases m with
      | nil =>
        rw [jChars_obj_nil]
        unfold parseVal
        rw [List.cons_append, skipWs_cons_not _ (by decide)]
        simp only [reduceIte]
        rw [List.singleton_append, skipWs_cons_not _ (by decide)]
        simp
      | cons k v t =>
        rw [jChars_obj_cons]
        simp only [Json.goodNums, JsonObj.goodNums, Bool.and_eq_true] at hgood
        obtain ⟨hgv, hgt⟩ := hgood
        have hsz : 2 + jsize v + josize t ≤ g + 1 := by simpa [jsize] using hsize
        have hpv := jsize_pos v
        have hpt := josize_pos t
        obtain ⟨g2, rfl⟩ : ∃ g2, g = g2 + 1 := ⟨g - 1, by omega⟩
        have ihV := (ih g2 (by omega)).1 v (depth + 1) (joTail t depth ++ rest) hgv
          (by omega) (numBoundary_joTail t depth rest)
        have ihO := (ih (g2 + 1) (by omega)).2.2 t depth rest hgt (by omega)
        unfold parseVal
        rw [List.cons_append, List.cons_append, skipWs_cons_not _ (by decide)]
        simp only [reduceIte]
        rw [if_neg (by decide : ¬('{' = 'n')), if_neg (by decide : ¬('{' = 't')),
          if_neg (by decide : ¬('{' = 'f')), if_neg (by decide : ¬('{' = '"')),
          if_neg (by decide : ¬('{' = '['))]
        rw [skipWs_cons_ws _ (by decide), List.append_assoc, List.append_assoc,
          List.append_assoc, skipWs_jind, strChars_shape, skipWs_cons_not _ (by decide)]
        simp only [reduceIte]
        rw [if_neg (by decide : ¬('"' = '}'))]
        rw [parseStrBody_escString]
        simp only []
        rw [List.cons_append, List.cons_append, parseMemberVal_print g2 v (depth + 1) _ ihV]
        simp only []
        rw [ihO]
  · -- array tails
    intro t depth rest hgood hsize
    cases fuel with
    | zero =>
      have := jlsize_pos t
      omega
    | succ g =>
    cases t with
    | nil =>
      rw [jlTail_nil]
      unfold parseListTail
      rw [List.cons_append, skipWs_cons_ws _ (by decide), List.append_assoc, skipWs_jind,
        List.singleton_append, skipWs_cons_not _ (by decide)]
      simp
    | cons v t =>
      rw [jlTail_cons]
      simp only [JsonList.goodNums, Bool.and_eq_true] at hgood
      obtain ⟨hgv, hgt⟩ := hgood
      have hsz : 1 + jsize v + jlsize t ≤ g + 1 := by simpa [jlsize] using hsize
      have hpv := jsize_pos v
      have hpt := jlsize_pos t
      have ihV := (ih g (by omega)).1 v (depth + 1) (jlTail t depth ++ rest) hgv
        (by omega) (numBoundary_jlTail t depth rest)
      have ihL := (ih g (by omega)).2.1 t depth rest hgt (by omega)
      unfold parseListTail
      rw [List.cons_append, skipWs_cons_not _ (by decide)]
      simp only [reduceIte]
      rw [if_neg (by decide : ¬(',' = ']'))]
      rw [List.cons_append, parseVal_ws_cons _ _ _ (by decide), List.append_assoc,
        List.append_assoc, parseVal_jind, ihV]
      simp only []
      rw [ihL]
  · -- object tails
    intro o depth rest hgood hsize
    cases fuel with
    | zero =>
      have := josize_pos o
      omega
    | succ g =>
    cases o with
    | nil =>
      rw [joTail_nil]
      unfold parseObjTail
      rw [List.cons_append, skipWs_cons_ws _ (by decide), List.append_assoc, skipWs_jind,
        List.singleton_append, skipWs_cons_not _ (by decide)]
      simp
    | cons k v t =>
      rw [joTail_cons]
      simp only [JsonObj.goodNums, Bool.and_eq_true] at hgood
      obtain ⟨hgv, hgt⟩ := hgood
      have hsz : 2 + jsize v + josize t ≤ g + 1 := by simpa [josize] using hsize
      have hpv := jsize_pos v
      have hpt := josize_pos t
      obtain ⟨g2, rfl⟩ : ∃ g2, g = g2 + 1 := ⟨g - 1, by omega⟩
      have ihV := (ih g2 (by omega)).1 v (depth + 1) (joTail t depth ++ rest) hgv
        (by omega) (numBoundary_joTail t depth rest)
      have ihO := (ih (g2 + 1) (by omega)).2.2 t depth rest hgt (by omega)
      unfold parseObjTail
      rw [List.cons_append, skipWs_cons_not _ (by decide)]
      simp only [reduceIte]
      rw [if_neg (by decide : ¬(',' = '}'))]
      rw [List.cons_append, skipWs_cons_ws _ (by decide), List.append_assoc, List.append_assoc,
        List.append_assoc, skipWs_jind, strChars_shape, skipWs_cons_not _ (by decide)]
      simp only [reduceIte]
      rw [parseStrBody_escString]
      simp only []
      rw [List.cons_append, List.cons_append, parseMemberVal_print g2 v (depth + 1) _ ihV]
      simp only []
      rw [ihO]

mutual
theorem jsize_le_jChars (v : Json) (d : Nat) : jsize v ≤ (jChars v d).length := by
  cases v with
  | null => simp [jsize, jChars_null]
  | bool b => cases b <;> simp [jsize, jChars_true, jChars_false]
  | num q =>
    obtain ⟨c, r, hh, -⟩ := numChars_head q
    simp [jsize, jChars_num, hh]
  | str s => simp [jsize, jChars_str, strChars]
  | arr l =>
    cases l with
    | nil => simp [jsize, jChars_arr_nil]
    | cons v t =>
      have h1 := jsize_le_jChars v (d + 1)
      have h2 := jlsize_le_jlTail t d
      simp [jsize, jChars_arr_cons]
      omega
  | obj m =>
    cases m with
    | nil => simp [jsize, jChars_obj_nil]
    | cons k v t =>
      have h1 := jsize_le_jChars v (d + 1)
      have h2 := josize_le_joTail t d
      simp [jsize, jChars_obj_cons, strChars]
      omega
theorem jlsize_le_jlTail (t : JsonList) (d : Nat) : jlsize t ≤ (jlTail t d).length := by
  cases t with
  | nil => simp [jlsize, jlTail_nil]
  | cons v t =>
    have h1 := jsize_le_jChars v (d + 1)
    have h2 := jlsize_le_jlTail t d
    simp [jlsize, jlTail_cons]
    omega
theorem josize_le_joTail (o : JsonObj) (d : Nat) : josize o ≤ (joTail o d).length := by
  cases o with
  | nil => simp [josize, joTail_nil]
  | cons k v t =>
    have h1 := jsize_le_jChars v (d + 1)
    have h2 := josize_le_joTail t d
    simp [josize, joTail_cons, strChars]
    omega
end

/-- `JSON.parse` inverts `JSON.stringify(·, null, 2)` on every document whose
numbers are finite decimals (all documents obtainable from JSON text). -/
theorem parse_stringify (d : Json) (h : d.goodNums = true) :
    Json.parse (Json.stringify d) = some d := by
  have hlen : jsize d ≤ (jChars d 0).length + 1 :=
    le_trans (jsize_le_jChars d 0) (by omega)
  have hrt := (roundtrip_all ((jChars d 0).length + 1)).1 d 0 [] h hlen trivial
  rw [List.append_nil] at hrt
  have hun : Json.parse (Json.stringify d) =
      (match parseVal ((jChars d 0).length + 1) (jChars d 0) with
       | some (v, rest) => if skipWs rest = [] then some v else none
       | none => none) := rfl
  rw [hun, hrt]
  simp [skipWs]

/-- C4: a get-file invocation with a configured credential and a backend
that returns a JSON document yields exactly one content item, of kind
`json`, and deserializing its payload gives back exactly the backend's
document. -/
theorem c4_get_file_json_roundtrip (env : Env) (backend : FigmaRequest → HttpResp)
    (fileKey t : String) (data : Json)
    (htok : env.token = some t) (ht : t ≠ "")
    (hok : 200 ≤ (backend (buildFigmaRequest t ("files/" ++ fileKey) none)).status ∧
      (backend (buildFigmaRequest t ("files/" ++ fileKey) none)).status ≤ 299)
    (hbody : Json.parse (backend (buildFigmaRequest t ("files/" ++ fileKey) none)).bodyText =
      some data)
    (hgood : data.goodNums = true) :
    getFileTool env backend fileKey =
      (.ok ⟨[⟨"json", .str (Json.stringify data)⟩]⟩,
        [buildFigmaRequest t ("files/" ++ fileKey) none]) ∧
    Json.parse (Json.stringify data) = some data := by
  obtain ⟨tok⟩ := env
  simp only [Env.token] at htok
  subst htok
  constructor
  · simp [getFileTool, figma, ht, hok, hbody]
  · exact parse_stringify data hgood

/-- C4 witness: a stub backend returning the document `{"a": 1}`. -/
theorem c4_get_file_json_roundtrip_witness :
    getFileTool ⟨some "tok"⟩ (fun _ => ⟨200, "\x7b\"a\":1\x7d"⟩) "k" =
      (.ok ⟨[⟨"json", .str (Json.stringify (.obj (.cons "a" (.num 1) .nil)))⟩]⟩,
        [buildFigmaRequest "tok" ("files/" ++ "k") none]) ∧
    Json.parse (Json.stringify (.obj (.cons "a" (.num 1) .nil))) =
      some (.obj (.cons "a" (.num 1) .nil)) :=
  c4_get_file_json_roundtrip ⟨some "tok"⟩ (fun _ => ⟨200, "\x7b\"a\":1\x7d"⟩) "k" "tok"
    (.obj (.cons "a" (.num 1) .nil)) rfl (by decide) (by decide) (by rfl) (by rfl)

end FigmaMcp
